import Mathlib

/-!
# Verification of the ssi-service trust core

A shallow embedding, in Lean 4, of the trust core of the `ssi-service`
repository: the key lifecycle store, the DID method registry, the
resolution/verification bridge (`internal/did/access.go`), and the HTTP
integration helpers (`integration/common.go`).

Pure Go functions become Lean functions; the mutable key store becomes
explicit state passing over an association list; fallible Go code
(`(T, error)` returns) becomes `Except`/`Option`.  External trusted
libraries (base58 transport encoding, Ed25519 signing, the clock) are
modelled at the boundary the spec describes: `sign`/`verify` as abstract
pure functions, base58 as the standard big-integer base-58 encoding,
the clock as an injected date-time value.
-/

namespace SSI

/-! ## DID service (`pkg/service/did`, file `src/unnamed/part_001`)

The Go `Service` struct holds a `map[Method]MethodHandler`, a nil-able
storage pointer and a logger.  The claims only inspect the *key set* of
the handler map and the nil-ness of storage, so the map is embedded as
its duplicate-free key list (Go map insertion of an existing key leaves
the key set unchanged) and storage as an `Option`.  The handler values
(`MethodHandler` interface) never influence the claims. -/

/-- `type Method string` -/
abbrev Method := String

/-- `KeyMethod Method = "key"` -/
def KeyMethod : Method := "key"

/-- Readiness status kinds from `pkg/service/framework`. -/
inductive StatusKind where
  | ready
  | notReady
deriving DecidableEq, Repr

/-- `framework.Status` -/
structure FrameworkStatus where
  status : StatusKind
  message : String
deriving DecidableEq, Repr

/-- The DID `Service` struct: handler-map key set plus nil-able storage. -/
structure DIDService where
  handlers : List Method
  storage : Option Unit
deriving DecidableEq, Repr

/-- Go map insertion, restricted to its effect on the key set:
inserting a present key leaves the keys unchanged, a fresh key is added. -/
def insertHandler (hs : List Method) (m : Method) : List Method :=
  if m ∈ hs then hs else hs ++ [m]

/-- `Service.Status`: NotReady when storage is nil or no handlers are
loaded, Ready otherwise.  A pure function of the receiver. -/
def didStatus (s : DIDService) : FrameworkStatus :=
  if s.storage = none ∨ s.handlers = [] then
    { status := .notReady, message := "storage not loaded and/or no DID methods loaded" }
  else
    { status := .ready, message := "" }

/-- `Service.GetSupportedMethods`: the keys of the handler map. -/
def getSupportedMethods (s : DIDService) : List Method :=
  s.handlers

/-- `Service.instantiateHandlerForMethod`: a closed switch over the known
methods.  `case KeyMethod` installs the key handler (handler construction
`NewKeyDIDHandler` succeeds; its error branch is unreachable for the
in-repo handler); `default` rejects the method. -/
def instantiateHandlerForMethod (s : DIDService) (m : Method) : Except String DIDService :=
  if m = KeyMethod then
    .ok { s with handlers := insertHandler s.handlers m }
  else
    .error ("unsupported DID method: " ++ m)

/-- The handler-instantiation loop of `NewDIDService`: on the first
failing method the wrapped error is returned and no service is built. -/
def newDIDServiceLoop (s : DIDService) : List Method → Except String DIDService
  | [] => .ok s
  | m :: rest =>
    match instantiateHandlerForMethod s m with
    | .error e => .error ("could not instantiate DID svc: " ++ e)
    | .ok s' => newDIDServiceLoop s' rest

/-- `NewDIDService(log, methods, s)`: builds DID storage, then
instantiates a handler for every requested method, failing fast. -/
def NewDIDService (methods : List Method) : Except String DIDService :=
  newDIDServiceLoop { handlers := [], storage := some () } methods

/-! ## HTTP integration helpers (`integration/common.go`) -/

/-- `is2xxResponse(statusCode int) bool { return statusCode/100 != 2 }`.
Go `/` on `int` is truncated (toward-zero) division, i.e. `Int.tdiv`. -/
def is2xxResponse (statusCode : Int) : Bool :=
  Int.tdiv statusCode 100 != 2

/-- An HTTP response as the helpers see it: status code and body. -/
structure HTTPResponse where
  statusCode : Int
  body : String
deriving DecidableEq, Repr

/-- The response-handling tail of `get(url)`: error when
`is2xxResponse` holds of the status, otherwise the body. -/
def getResponse (resp : HTTPResponse) : Except String String :=
  if is2xxResponse resp.statusCode then
    .error ("status code not in the 200s. body: " ++ resp.body)
  else
    .ok resp.body

/-- The response-handling tail of `put(url, json)`: same gate as `get`,
with the status code in the message. -/
def putResponse (resp : HTTPResponse) : Except String String :=
  if is2xxResponse resp.statusCode then
    .error ("status code " ++ toString resp.statusCode ++ " not in the 200s. body: " ++ resp.body)
  else
    .ok resp.body

/-! ## Resolution & verification bridge (`internal/did/access.go`)

The bridge consumes the external `ssi-sdk` resolver and crypto.  Per the
spec those are a trusted library boundary: `sign(data, key) -> signature`
and `verify(data, signature, pubkey) -> bool`.  They are modelled by an
abstract key space: private keys are naturals, `pubOf` maps a private key
to its public counterpart, and a signature is the pair of the signing
key's public key and the signed payload — exactly enough structure for
`verify (sign data k) (pubOf k) = true` and for tampered payloads or
wrong keys to fail. -/

/-- Public keys of the abstract crypto boundary. -/
abbrev PubKey := Nat

/-- Public counterpart of a private key (injective, distinct from it). -/
def pubOf (priv : Nat) : PubKey := priv + 1

/-- A JWT as the bridge sees it: a payload plus a signature. -/
structure JWT where
  payload : String
  signature : PubKey × String
deriving DecidableEq, Repr

/-- Trusted-boundary `sign`: signing a payload with a private key. -/
def signJWT (priv : Nat) (payload : String) : JWT :=
  { payload := payload, signature := (pubOf priv, payload) }

/-- Trusted-boundary `verify`: the signature must bind this public key
to this payload. -/
def verifyJWT (pub : PubKey) (t : JWT) : Bool :=
  t.signature == (pub, t.payload)

/-- A resolved DID document: its verification methods, each binding a
key identifier (`kid`) to a public key.  The spec's invariant makes the
kid unique within a document, so an association list.  -/
structure DIDDocument where
  verificationMethod : List (String × PubKey)
deriving DecidableEq, Repr

/-- The injected `resolution.Resolver` capability:
`resolve(ctx, did) -> (document, error)`. -/
abbrev Resolver := String → Except String DIDDocument

/-- `didsdk.GetKeyFromVerificationMethod(doc, kid)`: extracts the public
key of the verification method matching `kid`, NotFound-style error when
the document has no such method. -/
def GetKeyFromVerificationMethod (doc : DIDDocument) (kid : String) : Except String PubKey :=
  match doc.verificationMethod.lookup kid with
  | some pk => .ok pk
  | none => .error ("verification method not found in did document: " ++ kid)

/-- The distinguishable error kinds of `VerifyTokenFromDID` /
`ResolveKeyForDID`, one per `return` branch of the Go code, each
carrying its wrapped message. -/
inductive AccessError where
  | resolutionFailed (msg : String)
  | keyExtractionFailed (msg : String)
  | verificationFailed (msg : String)
deriving DecidableEq, Repr

/-- `ResolveKeyForDID(ctx, resolver, did, kid)`: Go returns the pair
`(pubKey crypto.PublicKey, err error)`; both error branches return
`nil` for the key (`return nil, err`), the success branch returns the
extracted key and a nil error. -/
def ResolveKeyForDID (resolver : Resolver) (did kid : String) :
    Option PubKey × Option AccessError :=
  match resolver did with
  | .error e =>
    (none, some (.resolutionFailed ("resolving DID: " ++ did ++ ": " ++ e)))
  | .ok resolved =>
    match GetKeyFromVerificationMethod resolved kid with
    | .error e =>
      (none, some (.keyExtractionFailed
        ("getting verification information from DID Document: " ++ did ++ ": " ++ e)))
    | .ok pk => (some pk, none)

/-- `VerifyTokenFromDID(ctx, resolver, did, kid, token)`: resolves the
DID, extracts `kid`'s verification key, builds a verifier and checks the
token's signature.  (`keyaccess.NewJWKKeyAccessVerifier` fails only on
empty arguments, which this call site never passes; its error branch is
not reachable here and the verifier is built directly.) -/
def VerifyTokenFromDID (resolver : Resolver) (did kid : String) (token : JWT) :
    Except AccessError Unit :=
  match resolver did with
  | .error e =>
    .error (.resolutionFailed ("resolving DID: " ++ did ++ ": " ++ e))
  | .ok resolved =>
    match GetKeyFromVerificationMethod resolved kid with
    | .error e =>
      .error (.keyExtractionFailed
        ("getting verification information from the DID document: " ++ did ++ ": " ++ e))
    | .ok pubKey =>
      if verifyJWT pubKey token then .ok ()
      else .error (.verificationFailed "could not verify the application's signature")

/-- `needle` occurs as a contiguous substring of `haystack`. -/
def ContainsSubstring (needle haystack : String) : Prop :=
  ∃ pre post, haystack = pre ++ needle ++ post

/-! ## Base58 transport encoding (`mr-tron/base58`)

The keystore transports private key bytes base58-encoded
(`PrivateKeyBase58`).  The encoder is the standard Bitcoin-alphabet
big-integer encoding: leading zero bytes become leading `'1'`
characters, and the remaining bytes, read as a big-endian base-256
number, are rewritten in base 58 big-endian over the alphabet.  Digit
extraction is fuel-based structural recursion (kernel-reducible) and is
proved equal to `Nat.digits`. -/

/-- Little-endian base-`b` digits of `n`, with explicit fuel. -/
def digitsLEAux (b : Nat) : Nat → Nat → List Nat
  | _, 0 => []
  | 0, _ + 1 => []
  | fuel + 1, n + 1 => (n + 1) % b :: digitsLEAux b fuel ((n + 1) / b)

/-- Little-endian base-`b` digits of `n` (`[]` for `0`). -/
def digitsLE (b n : Nat) : List Nat := digitsLEAux b n n

/-- The Bitcoin base58 alphabet. -/
def b58Alphabet : List Char :=
  "123456789ABCDEFGHJKLMNPQRSTUVWXYZabcdefghijkmnopqrstuvwxyz".toList

/-- Index of a character in the alphabet, scanning from `i`. -/
def b58DigitAux : List Char → Char → Nat → Option Nat
  | [], _, _ => none
  | a :: rest, c, i => if a = c then some i else b58DigitAux rest c (i + 1)

/-- The base58 digit value of a character, `none` for a non-alphabet
character. -/
def b58DigitOf (c : Char) : Option Nat := b58DigitAux b58Alphabet c 0

/-- A big-endian byte list read as a natural number. -/
def bytesToNat (bs : List Nat) : Nat := bs.foldl (fun acc x => acc * 256 + x) 0

/-- `base58.Encode`: leading zero bytes become `'1'`s, the rest is the
base-58 big-endian rewriting of the byte value. -/
def base58Encode (bs : List Nat) : String :=
  ⟨List.replicate (bs.takeWhile (· == 0)).length '1'
    ++ (digitsLE 58 (bytesToNat bs)).reverse.map (fun d => b58Alphabet.getD d ' ')⟩

/-- The decoder's digit loop: every character must be in the alphabet. -/
def b58ParseDigits : List Char → Option (List Nat)
  | [] => some []
  | c :: rest =>
    match b58DigitOf c, b58ParseDigits rest with
    | some d, some ds => some (d :: ds)
    | _, _ => none

/-- `base58.Decode`: leading `'1'`s become zero bytes, the rest is
parsed as a base-58 big-endian number and rewritten in base 256;
`none` on a non-alphabet character. -/
def base58Decode (s : String) : Option (List Nat) :=
  (b58ParseDigits (s.data.dropWhile (· == '1'))).map (fun ds =>
    List.replicate (s.data.takeWhile (· == '1')).length 0
      ++ (digitsLE 256 (ds.foldl (fun acc x => acc * 58 + x) 0)).reverse)

/-! ## Key lifecycle service (`pkg/service/keystore`)

The keystore service implementation is not among the given source files;
only its test file (`src/unnamed/part_000`) is.  The definitions below
are therefore modelled from the spec (§4.1 Key Lifecycle Service, §3 Key
Record, §6/§7), with the behaviour the tests exercise: store decodes the
base58 key and persists `revoked=false`; get returns bytes, flag and
timestamp; revoke stamps the injected clock's now as a fixed UTC
ISO-8601 string; sign refuses revoked keys with a permission-denied,
"cannot use revoked key" error.  Where the spec leaves a choice it also
names the default taken here: re-storing an existing id is a conflict
("overwrite-not-allowed by default"), a second revoke is idempotent
success. -/

/-- Modelled from the spec: the closed set of error kinds of §7. -/
inductive ErrKind where
  | notFound
  | conflict
  | permissionDenied
  | invalidArgument
deriving DecidableEq, Repr

/-- Modelled from the spec: an error kind with its wrapped message. -/
structure KeyStoreError where
  kind : ErrKind
  message : String
deriving DecidableEq, Repr

/-- Modelled from the spec: the injected clock's `now()` value, a UTC
calendar date-time. -/
structure DateTime where
  year : Nat
  month : Nat
  day : Nat
  hour : Nat
  minute : Nat
  second : Nat
deriving DecidableEq, Repr

/-- Decimal digit characters of `n` (big-endian, `"0"` for zero). -/
def natToDecimal (n : Nat) : List Char :=
  if n = 0 then ['0'] else (digitsLE 10 n).reverse.map (fun d => Char.ofNat (48 + d))

/-- Left-pad with `'0'` to the given width. -/
def padZero (width : Nat) (cs : List Char) : List Char :=
  List.replicate (width - cs.length) '0' ++ cs

/-- Modelled from the spec: Go's `time.Time.Format(time.RFC3339)` on a
whole-second UTC time — the fixed UTC ISO-8601 form
`YYYY-MM-DDThh:mm:ssZ`. -/
def formatRFC3339 (t : DateTime) : String :=
  ⟨padZero 4 (natToDecimal t.year) ++ ['-'] ++ padZero 2 (natToDecimal t.month) ++ ['-']
    ++ padZero 2 (natToDecimal t.day) ++ ['T'] ++ padZero 2 (natToDecimal t.hour) ++ [':']
    ++ padZero 2 (natToDecimal t.minute) ++ [':'] ++ padZero 2 (natToDecimal t.second) ++ ['Z']⟩

/-- Modelled from the spec: a persisted Key Record (§3). -/
structure KeyRecord where
  id : String
  keyType : String
  controller : String
  key : List Nat
  revoked : Bool
  revokedAt : String
deriving DecidableEq, Repr

/-- Modelled from the spec: the keystore service state — the Key Record
Store contents (an id-keyed association list) plus the injected clock. -/
structure KeyStoreState where
  records : List (String × KeyRecord)
  clock : DateTime
deriving DecidableEq, Repr

/-- Lookup in the Key Record Store. -/
def lookupRecord : List (String × KeyRecord) → String → Option KeyRecord
  | [], _ => none
  | (k, v) :: rest, i => if k = i then some v else lookupRecord rest i

/-- In-place update of the record stored under `i`. -/
def updateRecord : List (String × KeyRecord) → String → KeyRecord → List (String × KeyRecord)
  | [], _, _ => []
  | (k, v) :: rest, i, r => if k = i then (k, r) :: rest else (k, v) :: updateRecord rest i r

/-- Modelled from the spec: `StoreKey(id, type, controller,
privateKeyEncoded)` — id non-empty, not already present (conflict
otherwise), base58-decode the key, persist with `revoked=false`. -/
def StoreKey (s : KeyStoreState) (i keyType controller privateKeyBase58 : String) :
    Except KeyStoreError KeyStoreState :=
  if i = "" then .error ⟨.invalidArgument, "key id must not be empty"⟩
  else
    match lookupRecord s.records i with
    | some _ => .error ⟨.conflict, "key already exists with id: " ++ i⟩
    | none =>
      match base58Decode privateKeyBase58 with
      | none => .error ⟨.invalidArgument, "could not decode base58 key for id: " ++ i⟩
      | some keyBytes =>
        .ok { s with records := (i, ⟨i, keyType, controller, keyBytes, false, ""⟩) :: s.records }

/-- The view `GetKey` returns: raw bytes, revocation flag, timestamp. -/
structure GetKeyResponse where
  key : List Nat
  revoked : Bool
  revokedAt : String
deriving DecidableEq, Repr

/-- Modelled from the spec: `GetKey(id)` — NotFound when absent,
otherwise the record's bytes, flag and timestamp (empty when not
revoked). -/
def GetKey (s : KeyStoreState) (i : String) : Except KeyStoreError GetKeyResponse :=
  match lookupRecord s.records i with
  | none => .error ⟨.notFound, "key not found: " ++ i⟩
  | some r => .ok ⟨r.key, r.revoked, r.revokedAt⟩

/-- The revoked image of a record: flag set, timestamp stamped. -/
def revokeRecord (r : KeyRecord) (t : String) : KeyRecord :=
  { r with revoked := true, revokedAt := t }

/-- Modelled from the spec: `RevokeKey(id)` — NotFound when absent; on
first revocation stamps `revokedAt` from the injected clock in fixed UTC
ISO-8601 and persists; a second revocation is idempotent success and
changes nothing. -/
def RevokeKey (s : KeyStoreState) (i : String) : Except KeyStoreError KeyStoreState :=
  match lookupRecord s.records i with
  | none => .error ⟨.notFound, "key not found: " ++ i⟩
  | some r =>
    if r.revoked then .ok s
    else .ok { s with records := updateRecord s.records i (revokeRecord r (formatRFC3339 s.clock)) }

/-- Modelled from the spec: `Sign(id, payload)` — NotFound when absent;
permission-denied with a "cannot use revoked key" message when revoked;
otherwise the trusted boundary's `sign(payload, key)`, modelled as the
(key, payload) pair. -/
def Sign (s : KeyStoreState) (i payload : String) :
    Except KeyStoreError (List Nat × String) :=
  match lookupRecord s.records i with
  | none => .error ⟨.notFound, "key not found: " ++ i⟩
  | some r =>
    if r.revoked then
      .error ⟨.permissionDenied, "cannot use revoked key" ++ (": " ++ i)⟩
    else .ok (r.key, payload)

/-- The keystore operations a caller can issue (for the revocation
monotonicity invariant, quantified over operation sequences). -/
inductive KeyStoreOp where
  | storeOp (id keyType controller privateKeyBase58 : String)
  | getOp (id : String)
  | revokeOp (id : String)
  | signOp (id payload : String)
deriving DecidableEq, Repr

/-- The state after one operation (reads leave the state unchanged; a
failed write leaves the prior state intact, per §5's cancellation /
atomicity requirement). -/
def applyOp (s : KeyStoreState) : KeyStoreOp → KeyStoreState
  | .storeOp i t c e =>
    match StoreKey s i t c e with
    | .ok s' => s'
    | .error _ => s
  | .getOp _ => s
  | .revokeOp i =>
    match RevokeKey s i with
    | .ok s' => s'
    | .error _ => s
  | .signOp _ _ => s

/-- The state after a sequence of operations. -/
def applyOps (s : KeyStoreState) (ops : List KeyStoreOp) : KeyStoreState :=
  ops.foldl applyOp s

instance {ε α : Type} [DecidableEq ε] [DecidableEq α] : DecidableEq (Except ε α) := fun x y =>
  match x, y with
  | .ok a, .ok b =>
    if h : a = b then isTrue (by rw [h]) else isFalse (fun hc => h (Except.ok.inj hc))
  | .error a, .error b =>
    if h : a = b then isTrue (by rw [h]) else isFalse (fun hc => h (Except.error.inj hc))
  | .ok _, .error _ => isFalse (fun hc => Except.noConfusion hc)
  | .error _, .ok _ => isFalse (fun hc => Except.noConfusion hc)

/-! Shared concrete fixtures mirroring `TestRevokeKey` (mock clock set to
2023-06-23 00:00:00 UTC, id `test-revocation-id`). -/

/-- The mock clock value of the tests. -/
def mockClock : DateTime := ⟨2023, 6, 23, 0, 0, 0⟩

/-- A stored, not-yet-revoked record. -/
def sampleActiveRecord : KeyRecord :=
  ⟨"test-revocation-id", "Ed25519", "test-revocation-controller", [1, 2, 3], false, ""⟩

/-- A store holding one active record, under the mock clock. -/
def sampleActiveState : KeyStoreState :=
  ⟨[("test-revocation-id", sampleActiveRecord)], mockClock⟩

/-- The same record after revocation at the mock clock. -/
def sampleRevokedRecord : KeyRecord :=
  { sampleActiveRecord with revoked := true, revokedAt := "2023-06-23T00:00:00Z" }

/-- The store after the revocation. -/
def sampleRevokedState : KeyStoreState :=
  ⟨[("test-revocation-id", sampleRevokedRecord)], mockClock⟩

/-! ## Theorems: DID service registry -/

theorem mem_insertHandler (hs : List Method) (m x : Method) :
    x ∈ insertHandler hs m ↔ x ∈ hs ∨ x = m := by
  unfold insertHandler
  by_cases h : m ∈ hs
  · rw [if_pos h]
    constructor
    · exact Or.inl
    · rintro (hx | rfl)
      · exact hx
      · exact h
  · rw [if_neg h]
    simp

theorem newDIDServiceLoop_error (ms : List Method) :
    ∀ s : DIDService, (∃ m ∈ ms, m ≠ KeyMethod) →
      ∃ e, newDIDServiceLoop s ms = .error e := by
  induction ms with
  | nil => intro s h; simp at h
  | cons m rest ih =>
    rintro s ⟨m', hm', hne⟩
    unfold newDIDServiceLoop instantiateHandlerForMethod
    by_cases hk : m = KeyMethod
    · rw [if_pos hk]
      rcases List.mem_cons.mp hm' with rfl | htail
      · exact absurd hk hne
      · exact ih _ ⟨m', htail, hne⟩
    · rw [if_neg hk]
      exact ⟨_, rfl⟩

theorem newDIDServiceLoop_mem (ms : List Method) :
    ∀ s svc, newDIDServiceLoop s ms = .ok svc →
      ∀ x, x ∈ svc.handlers ↔ x ∈ s.handlers ∨ x ∈ ms := by
  induction ms with
  | nil =>
    intro s svc h x
    unfold newDIDServiceLoop at h
    cases h
    simp
  | cons m rest ih =>
    intro s svc h x
    unfold newDIDServiceLoop instantiateHandlerForMethod at h
    by_cases hk : m = KeyMethod
    · rw [if_pos hk] at h
      have := ih _ svc h x
      rw [this]
      simp only [mem_insertHandler, List.mem_cons]
      tauto
    · rw [if_neg hk] at h
      cases h

/-- C5: constructing the DID service with a method list containing any
name other than the known "key" method fails construction entirely: the
constructor returns an error and no service is returned. -/
theorem c5_unsupported_method_fails_construction (methods : List Method)
    (h : ∃ m ∈ methods, m ≠ KeyMethod) :
    ∃ e, NewDIDService methods = Except.error e :=
  newDIDServiceLoop_error methods _ h

theorem c5_unsupported_method_fails_construction_witness :
    ∃ e, NewDIDService ["key", "web"] = Except.error e :=
  c5_unsupported_method_fails_construction ["key", "web"] ⟨"web", by simp, by decide⟩

/-- C6: whenever construction succeeds, `GetSupportedMethods` returns,
as a set, exactly the requested methods: every requested method appears
and no other method appears. -/
theorem c6_supported_methods_exactly_requested (methods : List Method) (svc : DIDService)
    (h : NewDIDService methods = Except.ok svc) :
    ∀ m : Method, m ∈ getSupportedMethods svc ↔ m ∈ methods := by
  intro m
  have hmem := newDIDServiceLoop_mem methods _ svc h m
  simpa [getSupportedMethods] using hmem

theorem c6_supported_methods_exactly_requested_witness :
    NewDIDService ["key"] = Except.ok ⟨["key"], some ()⟩ ∧
      ("key" ∈ getSupportedMethods ⟨["key"], some ()⟩ ↔ "key" ∈ ["key"]) :=
  ⟨rfl, c6_supported_methods_exactly_requested ["key"] ⟨["key"], some ()⟩ rfl "key"⟩

/-- C7: `Status` reports NotReady exactly when storage is unset or no
method handlers are activated, and Ready otherwise; as a pure function
of the service value it has no side effects. -/
theorem c7_status_notReady_iff (s : DIDService) :
    ((didStatus s).status = StatusKind.notReady ↔ s.storage = none ∨ s.handlers = []) ∧
    ((didStatus s).status = StatusKind.ready ↔ ¬(s.storage = none ∨ s.handlers = [])) := by
  unfold didStatus
  by_cases h : s.storage = none ∨ s.handlers = []
  · rw [if_pos h]
    simp [h]
  · rw [if_neg h]
    simp [h]

/-! ## Theorems: HTTP integration helpers -/

theorem tdiv_100_eq_two_iff (c : Int) : Int.tdiv c 100 = 2 ↔ 200 ≤ c ∧ c ≤ 299 := by
  cases c with
  | ofNat n =>
    show Int.ofNat (n / 100) = 2 ↔ 200 ≤ Int.ofNat n ∧ Int.ofNat n ≤ 299
    simp only [Int.ofNat_eq_natCast]
    omega
  | negSucc n =>
    show -Int.ofNat (Nat.succ n / 100) = 2 ↔ 200 ≤ Int.negSucc n ∧ Int.negSucc n ≤ 299
    simp only [Int.ofNat_eq_natCast, Int.negSucc_eq, Nat.succ_eq_add_one]
    omega

/-- C10: `is2xxResponse` is true exactly when the status code is NOT in
the 200–299 range (its name is inverted relative to its behaviour), and
consequently `get` and `put` return the response body exactly when the
status is in the 200s and an error otherwise. -/
theorem c10_is2xx_inverted_and_helpers (resp : HTTPResponse) :
    (is2xxResponse resp.statusCode = true ↔
      ¬(200 ≤ resp.statusCode ∧ resp.statusCode ≤ 299)) ∧
    (getResponse resp = Except.ok resp.body ↔
      200 ≤ resp.statusCode ∧ resp.statusCode ≤ 299) ∧
    (putResponse resp = Except.ok resp.body ↔
      200 ≤ resp.statusCode ∧ resp.statusCode ≤ 299) ∧
    (¬(200 ≤ resp.statusCode ∧ resp.statusCode ≤ 299) →
      (∃ e, getResponse resp = Except.error e) ∧ ∃ e, putResponse resp = Except.error e) := by
  have hiff := tdiv_100_eq_two_iff resp.statusCode
  unfold getResponse putResponse is2xxResponse
  by_cases h2 : 200 ≤ resp.statusCode ∧ resp.statusCode ≤ 299
  · have heq : Int.tdiv resp.statusCode 100 = 2 := hiff.mpr h2
    simp [heq, h2]
  · have hne : Int.tdiv resp.statusCode 100 ≠ 2 := fun hc => h2 (hiff.mp hc)
    simp [bne_iff_ne, hne, h2]

theorem c10_is2xx_inverted_and_helpers_witness :
    (∃ e, getResponse ⟨404, "not found"⟩ = Except.error e) ∧
      ∃ e, putResponse ⟨404, "not found"⟩ = Except.error e :=
  (c10_is2xx_inverted_and_helpers ⟨404, "not found"⟩).2.2.2 (by decide)

/-! ## Theorems: resolution & verification bridge -/

/-- C8: `VerifyTokenFromDID` fails distinguishably: a failing resolver
yields a resolution-failed error wrapped with the identity string; a
resolved document without `kid`'s verification method yields a
key-extraction (NotFound-style) error; a signature that does not verify
under the extracted key yields a verification-failed error; and with the
real document and a token signed by `kid`'s key it succeeds. -/
theorem c8_verify_token_distinguishable_errors (resolver : Resolver) (did kid : String) :
    (∀ (token : JWT) (e : String), resolver did = Except.error e →
      ∃ msg, VerifyTokenFromDID resolver did kid token =
          Except.error (AccessError.resolutionFailed msg) ∧ ContainsSubstring did msg) ∧
    (∀ (token : JWT) (doc : DIDDocument), resolver did = Except.ok doc →
      doc.verificationMethod.lookup kid = none →
      ∃ msg, VerifyTokenFromDID resolver did kid token =
        Except.error (AccessError.keyExtractionFailed msg)) ∧
    (∀ (token : JWT) (doc : DIDDocument) (pk : PubKey), resolver did = Except.ok doc →
      doc.verificationMethod.lookup kid = some pk → verifyJWT pk token = false →
      ∃ msg, VerifyTokenFromDID resolver did kid token =
        Except.error (AccessError.verificationFailed msg)) ∧
    (∀ (doc : DIDDocument) (priv : Nat) (payload : String), resolver did = Except.ok doc →
      doc.verificationMethod.lookup kid = some (pubOf priv) →
      VerifyTokenFromDID resolver did kid (signJWT priv payload) = Except.ok ()) := by
  refine ⟨?_, ?_, ?_, ?_⟩
  · intro token e he
    refine ⟨"resolving DID: " ++ did ++ ": " ++ e, ?_, "resolving DID: ", ": " ++ e, ?_⟩
    · simp only [VerifyTokenFromDID, he]
    · rw [String.append_assoc]
  · intro token doc hok hnone
    refine ⟨"getting verification information from the DID document: " ++ did ++ ": "
      ++ ("verification method not found in did document: " ++ kid), ?_⟩
    simp only [VerifyTokenFromDID, GetKeyFromVerificationMethod, hok, hnone]
  · intro token doc pk hok hsome hfail
    refine ⟨"could not verify the application's signature", ?_⟩
    simp only [VerifyTokenFromDID, GetKeyFromVerificationMethod, hok, hsome, hfail,
      Bool.false_eq_true, if_false]
  · intro doc priv payload hok hsome
    simp only [VerifyTokenFromDID, GetKeyFromVerificationMethod, hok, hsome]
    have hv : verifyJWT (pubOf priv) (signJWT priv payload) = true := by
      simp [verifyJWT, signJWT]
    rw [hv]
    simp

theorem c8_verify_token_distinguishable_errors_witness :
    (∃ msg, VerifyTokenFromDID (fun _ => Except.error "dns failure") "did:example:abc" "k1"
        (signJWT 5 "hello") = Except.error (AccessError.resolutionFailed msg) ∧
        ContainsSubstring "did:example:abc" msg) ∧
    (∃ msg, VerifyTokenFromDID (fun _ => Except.ok ⟨[]⟩) "did:example:abc" "k1"
        (signJWT 5 "hello") = Except.error (AccessError.keyExtractionFailed msg)) ∧
    (∃ msg, VerifyTokenFromDID (fun _ => Except.ok ⟨[("k1", pubOf 5)]⟩) "did:example:abc" "k1"
        (signJWT 7 "hello") = Except.error (AccessError.verificationFailed msg)) ∧
    VerifyTokenFromDID (fun _ => Except.ok ⟨[("k1", pubOf 5)]⟩) "did:example:abc" "k1"
        (signJWT 5 "hello") = Except.ok () := by
  refine ⟨?_, ?_, ?_, ?_⟩
  · exact (c8_verify_token_distinguishable_errors (fun _ => Except.error "dns failure")
      "did:example:abc" "k1").1 (signJWT 5 "hello") "dns failure" rfl
  · exact (c8_verify_token_distinguishable_errors (fun _ => Except.ok ⟨[]⟩)
      "did:example:abc" "k1").2.1 (signJWT 5 "hello") ⟨[]⟩ rfl rfl
  · exact (c8_verify_token_distinguishable_errors (fun _ => Except.ok ⟨[("k1", pubOf 5)]⟩)
      "did:example:abc" "k1").2.2.1 (signJWT 7 "hello") ⟨[("k1", pubOf 5)]⟩ (pubOf 5)
      rfl (by decide) (by decide)
  · exact (c8_verify_token_distinguishable_errors (fun _ => Except.ok ⟨[("k1", pubOf 5)]⟩)
      "did:example:abc" "k1").2.2.2 ⟨[("k1", pubOf 5)]⟩ 5 "hello" rfl (by decide)

/-- C9: `ResolveKeyForDID` never returns a partial result: whenever the
error component is non-nil the key component is nil, and the key
component is non-nil exactly when both resolution and verification-method
extraction succeed. -/
theorem c9_resolve_key_no_partial_result (resolver : Resolver) (did kid : String) :
    ((ResolveKeyForDID resolver did kid).2 ≠ none →
      (ResolveKeyForDID resolver did kid).1 = none) ∧
    ((ResolveKeyForDID resolver did kid).1 ≠ none ↔
      ∃ doc pk, resolver did = Except.ok doc ∧
        doc.verificationMethod.lookup kid = some pk) := by
  unfold ResolveKeyForDID GetKeyFromVerificationMethod
  cases hres : resolver did with
  | error e => simp
  | ok doc =>
    cases hlook : doc.verificationMethod.lookup kid with
    | none => simp [hlook]
    | some pk => simp [hlook]

theorem c9_resolve_key_no_partial_result_witness :
    (ResolveKeyForDID (fun _ => Except.error "dns failure") "did:example:abc" "k1").1 = none :=
  (c9_resolve_key_no_partial_result (fun _ => Except.error "dns failure")
    "did:example:abc" "k1").1 (by decide)


/-! ## Theorems: key lifecycle service -/

theorem lookupRecord_cons (k : String) (v : KeyRecord) (rest : List (String × KeyRecord))
    (i : String) :
    lookupRecord ((k, v) :: rest) i = if k = i then some v else lookupRecord rest i := rfl

theorem updateRecord_cons (k : String) (v : KeyRecord) (rest : List (String × KeyRecord))
    (i : String) (r' : KeyRecord) :
    updateRecord ((k, v) :: rest) i r' =
      if k = i then (k, r') :: rest else (k, v) :: updateRecord rest i r' := rfl

theorem lookupRecord_updateRecord_self (l : List (String × KeyRecord)) (i : String)
    (r r' : KeyRecord) (h : lookupRecord l i = some r) :
    lookupRecord (updateRecord l i r') i = some r' := by
  induction l with
  | nil => simp [lookupRecord] at h
  | cons kv rest ih =>
    obtain ⟨k, v⟩ := kv
    rw [lookupRecord_cons] at h
    rw [updateRecord_cons]
    by_cases hk : k = i
    · rw [if_pos hk, lookupRecord_cons, if_pos hk]
    · rw [if_neg hk] at h
      rw [if_neg hk, lookupRecord_cons, if_neg hk]
      exact ih h

theorem lookupRecord_updateRecord_ne (l : List (String × KeyRecord)) (j i : String)
    (r' : KeyRecord) (h : j ≠ i) :
    lookupRecord (updateRecord l j r') i = lookupRecord l i := by
  induction l with
  | nil => rfl
  | cons kv rest ih =>
    obtain ⟨k, v⟩ := kv
    rw [updateRecord_cons]
    by_cases hk : k = j
    · have hki : ¬k = i := fun hc => h (by rw [← hk, hc])
      rw [if_pos hk, lookupRecord_cons, lookupRecord_cons, if_neg hki, if_neg hki]
    · rw [if_neg hk, lookupRecord_cons, lookupRecord_cons]
      by_cases hki : k = i
      · rw [if_pos hki, if_pos hki]
      · rw [if_neg hki, if_neg hki]
        exact ih

/-- One operation leaves a revoked record byte-for-byte intact. -/
theorem applyOp_preserves_revoked_record (s : KeyStoreState) (op : KeyStoreOp) (i : String)
    (r : KeyRecord) (hlook : lookupRecord s.records i = some r) (hrev : r.revoked = true) :
    lookupRecord (applyOp s op).records i = some r := by
  cases op with
  | getOp j => exact hlook
  | signOp j p => exact hlook
  | storeOp j t c e =>
    simp only [applyOp]
    cases hsk : StoreKey s j t c e with
    | error err => exact hlook
    | ok s' =>
      unfold StoreKey at hsk
      by_cases hj : j = ""
      · rw [if_pos hj] at hsk
        cases hsk
      · rw [if_neg hj] at hsk
        cases hlj : lookupRecord s.records j with
        | some v =>
          simp only [hlj] at hsk
          cases hsk
        | none =>
          simp only [hlj] at hsk
          cases hdec : base58Decode e with
          | none =>
            simp only [hdec] at hsk
            cases hsk
          | some bytes =>
            simp only [hdec] at hsk
            have hji : ¬j = i := by
              intro hc
              rw [hc, hlook] at hlj
              cases hlj
            cases hsk
            show lookupRecord ((j, ⟨j, t, c, bytes, false, ""⟩) :: s.records) i = some r
            rw [lookupRecord_cons, if_neg hji]
            exact hlook
  | revokeOp j =>
    simp only [applyOp]
    cases hrk : RevokeKey s j with
    | error err => exact hlook
    | ok s' =>
      unfold RevokeKey at hrk
      cases hlj : lookupRecord s.records j with
      | none =>
        simp only [hlj] at hrk
        cases hrk
      | some v =>
        simp only [hlj] at hrk
        by_cases hv : v.revoked = true
        · rw [if_pos hv] at hrk
          cases hrk
          exact hlook
        · rw [if_neg hv] at hrk
          have hji : j ≠ i := by
            intro hc
            rw [hc, hlook] at hlj
            cases hlj
            exact hv hrev
          cases hrk
          show lookupRecord (updateRecord s.records j
            (revokeRecord v (formatRFC3339 s.clock))) i = some r
          rw [lookupRecord_updateRecord_ne s.records j i _ hji]
          exact hlook

/-- A sequence of operations leaves a revoked record intact. -/
theorem applyOps_preserves_revoked_record (ops : List KeyStoreOp) :
    ∀ (s : KeyStoreState) (i : String) (r : KeyRecord),
      lookupRecord s.records i = some r → r.revoked = true →
      lookupRecord (applyOps s ops).records i = some r := by
  induction ops with
  | nil =>
    intro s i r h _
    exact h
  | cons op rest ih =>
    intro s i r h hrev
    exact ih (applyOp s op) i r (applyOp_preserves_revoked_record s op i r h hrev) hrev

/-- C4: revocation is monotonic and terminal — once a record is revoked,
no sequence of StoreKey/GetKey/RevokeKey/Sign operations sets `revoked`
back to false or changes `revokedAt`; in particular a second `RevokeKey`
succeeds and changes nothing at all. -/
theorem c4_revocation_monotonic_terminal (ops : List KeyStoreOp) (s : KeyStoreState)
    (i : String) (r : KeyRecord)
    (hlook : lookupRecord s.records i = some r) (hrev : r.revoked = true) :
    (∃ r', lookupRecord (applyOps s ops).records i = some r' ∧ r'.revoked = true ∧
      r'.revokedAt = r.revokedAt) ∧
    RevokeKey s i = Except.ok s := by
  constructor
  · exact ⟨r, applyOps_preserves_revoked_record ops s i r hlook hrev, hrev, rfl⟩
  · unfold RevokeKey
    simp only [hlook]
    rw [if_pos hrev]

theorem c4_revocation_monotonic_terminal_witness :
    (∃ r', lookupRecord (applyOps sampleRevokedState
        [KeyStoreOp.revokeOp "test-revocation-id",
         KeyStoreOp.storeOp "test-revocation-id" "Ed25519" "c" "Ldp",
         KeyStoreOp.signOp "test-revocation-id" "sampleDataAsString"]).records
        "test-revocation-id" = some r' ∧ r'.revoked = true ∧
      r'.revokedAt = sampleRevokedRecord.revokedAt) ∧
    RevokeKey sampleRevokedState "test-revocation-id" = Except.ok sampleRevokedState :=
  c4_revocation_monotonic_terminal _ sampleRevokedState "test-revocation-id"
    sampleRevokedRecord (by decide) (by decide)

/-- C1: signing with a revoked key fails for every payload with a
PermissionDenied-kind error whose message contains "cannot use revoked
key", and no signature is returned. -/
theorem c1_sign_revoked_key_denied (s : KeyStoreState) (i : String) (r : KeyRecord)
    (hlook : lookupRecord s.records i = some r) (hrev : r.revoked = true) (payload : String) :
    ∃ msg, Sign s i payload = Except.error ⟨ErrKind.permissionDenied, msg⟩ ∧
      ContainsSubstring "cannot use revoked key" msg := by
  refine ⟨"cannot use revoked key" ++ (": " ++ i), ?_, "", ": " ++ i, ?_⟩
  · unfold Sign
    simp only [hlook]
    rw [if_pos hrev]
  · rfl

theorem c1_sign_revoked_key_denied_witness :
    ∃ msg, Sign sampleRevokedState "test-revocation-id" "sampleDataAsString" =
        Except.error ⟨ErrKind.permissionDenied, msg⟩ ∧
      ContainsSubstring "cannot use revoked key" msg :=
  c1_sign_revoked_key_denied sampleRevokedState "test-revocation-id" sampleRevokedRecord
    (by decide) (by decide) "sampleDataAsString"

/-- C2: after revoking a stored, non-revoked key, `GetKey` reports
`revoked = true` and `revokedAt` equal to the injected clock's now at
the moment of revocation, formatted as a fixed UTC ISO-8601 string. -/
theorem c2_revoke_stamps_clock_rfc3339 (s s' : KeyStoreState) (i : String) (r : KeyRecord)
    (hlook : lookupRecord s.records i = some r) (hact : r.revoked = false)
    (hrev : RevokeKey s i = Except.ok s') :
    ∃ resp, GetKey s' i = Except.ok resp ∧ resp.revoked = true ∧
      resp.revokedAt = formatRFC3339 s.clock := by
  have hs' : s' =
      { s with records := updateRecord s.records i (revokeRecord r (formatRFC3339 s.clock)) } := by
    unfold RevokeKey at hrev
    simp only [hlook] at hrev
    rw [if_neg (by rw [hact]; exact Bool.false_ne_true)] at hrev
    exact (Except.ok.inj hrev).symm
  have hl : lookupRecord s'.records i = some (revokeRecord r (formatRFC3339 s.clock)) := by
    rw [hs']
    exact lookupRecord_updateRecord_self s.records i r _ hlook
  refine ⟨⟨r.key, true, formatRFC3339 s.clock⟩, ?_, rfl, rfl⟩
  unfold GetKey
  rw [hl]
  rfl

theorem c2_revoke_stamps_clock_rfc3339_witness :
    (RevokeKey sampleActiveState "test-revocation-id" = Except.ok sampleRevokedState) ∧
    ∃ resp, GetKey sampleRevokedState "test-revocation-id" = Except.ok resp ∧
      resp.revoked = true ∧ resp.revokedAt = "2023-06-23T00:00:00Z" := by
  have hrev : RevokeKey sampleActiveState "test-revocation-id" =
      Except.ok sampleRevokedState := by decide
  refine ⟨hrev, ?_⟩
  obtain ⟨resp, h1, h2, h3⟩ := c2_revoke_stamps_clock_rfc3339 sampleActiveState
    sampleRevokedState "test-revocation-id" sampleActiveRecord (by decide) (by decide) hrev
  exact ⟨resp, h1, h2, h3.trans (by decide)⟩

/-! ## Theorems: base58 round trip -/

theorem digitsLEAux_eq_digits (b : Nat) (hb : 2 ≤ b) :
    ∀ (fuel n : Nat), n ≤ fuel → digitsLEAux b fuel n = Nat.digits b n := by
  intro fuel
  induction fuel with
  | zero =>
    intro n hn
    cases Nat.le_zero.mp hn
    rw [Nat.digits_zero]
    rfl
  | succ f ih =>
    intro n hn
    cases n with
    | zero =>
      rw [Nat.digits_zero]
      rfl
    | succ m =>
      show (m + 1) % b :: digitsLEAux b f ((m + 1) / b) = Nat.digits b (m + 1)
      rw [Nat.digits_def' (by omega) (Nat.succ_pos m)]
      congr 1
      apply ih
      have hlt : (m + 1) / b < m + 1 := Nat.div_lt_self (Nat.succ_pos m) (by omega)
      omega

theorem digitsLE_eq_digits (b n : Nat) (hb : 2 ≤ b) : digitsLE b n = Nat.digits b n :=
  digitsLEAux_eq_digits b hb n n (Nat.le_refl n)

theorem foldl_mul_add (b : Nat) :
    ∀ (l : List Nat) (a : Nat),
      l.foldl (fun acc x => acc * b + x) a = a * b ^ l.length + Nat.ofDigits b l.reverse := by
  intro l
  induction l with
  | nil =>
    intro a
    simp [Nat.ofDigits]
  | cons x t ih =>
    intro a
    show t.foldl (fun acc x => acc * b + x) (a * b + x) = _
    rw [ih (a * b + x), List.reverse_cons, Nat.ofDigits_append, Nat.ofDigits_singleton]
    simp only [List.length_cons, List.length_reverse]
    ring

theorem bytesToNat_eq_ofDigits (bs : List Nat) :
    bytesToNat bs = Nat.ofDigits 256 bs.reverse := by
  unfold bytesToNat
  rw [foldl_mul_add 256 bs 0]
  simp

theorem foldl58_eq_ofDigits (ds : List Nat) :
    ds.foldl (fun acc x => acc * 58 + x) 0 = Nat.ofDigits 58 ds.reverse := by
  rw [foldl_mul_add 58 ds 0]
  simp

theorem foldl_replicate_zero (b : Nat) :
    ∀ (z : Nat) (l : List Nat),
      (List.replicate z 0 ++ l).foldl (fun acc x => acc * b + x) 0 =
        l.foldl (fun acc x => acc * b + x) 0 := by
  intro z
  induction z with
  | zero => intro l; rfl
  | succ k ih =>
    intro l
    rw [List.replicate_succ, List.cons_append]
    show (List.replicate k 0 ++ l).foldl (fun acc x => acc * b + x) (0 * b + 0) = _
    rw [show 0 * b + 0 = 0 by ring]
    exact ih l

theorem head_dropWhile_false {α : Type} (p : α → Bool) :
    ∀ (l : List α) (c : α), (l.dropWhile p).head? = some c → p c = false := by
  intro l
  induction l with
  | nil =>
    intro c h
    cases h
  | cons a t ih =>
    intro c h
    rw [List.dropWhile_cons] at h
    by_cases hp : p a = true
    · rw [if_pos hp] at h
      exact ih c h
    · rw [if_neg hp] at h
      rw [List.head?_cons] at h
      cases h
      exact Bool.eq_false_iff.mpr hp

theorem mem_dropWhile_subset {α : Type} (p : α → Bool) (l : List α) :
    ∀ x ∈ l.dropWhile p, x ∈ l := by
  induction l with
  | nil =>
    intro x hx
    exact hx
  | cons a t ih =>
    intro x hx
    rw [List.dropWhile_cons] at hx
    by_cases hp : p a = true
    · rw [if_pos hp] at hx
      exact List.mem_cons_of_mem a (ih x hx)
    · rw [if_neg hp] at hx
      exact hx

theorem takeWhile_beq_replicate {α : Type} [BEq α] [LawfulBEq α] (a : α) :
    ∀ l : List α, l.takeWhile (· == a) = List.replicate (l.takeWhile (· == a)).length a := by
  intro l
  induction l with
  | nil => rfl
  | cons c t ih =>
    rw [List.takeWhile_cons]
    by_cases hc : (c == a) = true
    · rw [if_pos hc]
      have hca : c = a := beq_iff_eq.mp hc
      subst hca
      rw [List.length_cons, List.replicate_succ]
      exact congrArg (List.cons _) ih
    · rw [if_neg hc]
      rfl

theorem dropWhile_takeWhile_replicate_append {α : Type} (p : α → Bool) (a : α)
    (hp : p a = true) (l : List α) (hl : ∀ c, l.head? = some c → p c = false) :
    ∀ z, (List.replicate z a ++ l).dropWhile p = l ∧
      (List.replicate z a ++ l).takeWhile p = List.replicate z a := by
  intro z
  induction z with
  | zero =>
    constructor
    · cases l with
      | nil => rfl
      | cons c t =>
        show (c :: t).dropWhile p = c :: t
        rw [List.dropWhile_cons, if_neg (by simp [hl c rfl])]
    · cases l with
      | nil => rfl
      | cons c t =>
        show (c :: t).takeWhile p = List.replicate 0 a
        rw [List.takeWhile_cons, if_neg (by simp [hl c rfl])]
        rfl
  | succ k ih =>
    constructor
    · rw [List.replicate_succ, List.cons_append, List.dropWhile_cons, if_pos hp]
      exact ih.1
    · rw [List.replicate_succ, List.cons_append, List.takeWhile_cons, if_pos hp]
      exact congrArg (List.cons a) ih.2

theorem b58DigitOf_getD (d : Nat) (hd : d < 58) :
    b58DigitOf (b58Alphabet.getD d ' ') = some d := by
  have h : ∀ x : Fin 58, b58DigitOf (b58Alphabet.getD x.val ' ') = some x.val := by decide
  exact h ⟨d, hd⟩

theorem b58_getD_ne_one (d : Nat) (hd : d < 58) (hne : d ≠ 0) :
    ((b58Alphabet.getD d ' ') == '1') = false := by
  have h : ∀ x : Fin 58, x.val ≠ 0 → ((b58Alphabet.getD x.val ' ') == '1') = false := by decide
  exact h ⟨d, hd⟩ hne

theorem b58ParseDigits_map (ds : List Nat) (h : ∀ d ∈ ds, d < 58) :
    b58ParseDigits (ds.map (fun d => b58Alphabet.getD d ' ')) = some ds := by
  induction ds with
  | nil => rfl
  | cons d t ih =>
    show b58ParseDigits (b58Alphabet.getD d ' ' :: t.map (fun d => b58Alphabet.getD d ' ')) =
      some (d :: t)
    unfold b58ParseDigits
    rw [b58DigitOf_getD d (h d (List.mem_cons_self d t)),
      ih (fun x hx => h x (List.mem_cons_of_mem d hx))]

theorem ofDigits_concat_ne_zero (b : Nat) (hb : 0 < b) (l : List Nat) (d : Nat) (hd : d ≠ 0) :
    Nat.ofDigits b (l ++ [d]) ≠ 0 := by
  rw [Nat.ofDigits_append, Nat.ofDigits_singleton]
  have hp : 0 < b ^ l.length := Nat.pos_pow_of_pos _ hb
  have hdp : 0 < d := Nat.pos_of_ne_zero hd
  have hm : 0 < b ^ l.length * d := Nat.mul_pos hp hdp
  omega

theorem bytesToNat_dropWhile_zero (bs : List Nat) :
    bytesToNat bs = bytesToNat (bs.dropWhile (· == 0)) := by
  conv_lhs => rw [← List.takeWhile_append_dropWhile (· == 0) bs]
  rw [takeWhile_beq_replicate 0 bs]
  unfold bytesToNat
  exact foldl_replicate_zero 256 _ _

theorem base58Decode_mk (cs : List Char) :
    base58Decode ⟨cs⟩ =
      (b58ParseDigits (cs.dropWhile (· == '1'))).map (fun ds =>
        List.replicate (cs.takeWhile (· == '1')).length 0
          ++ (digitsLE 256 (ds.foldl (fun acc x => acc * 58 + x) 0)).reverse) := rfl

theorem digits_256_bytes (bs : List Nat) (hvalid : ∀ x ∈ bs, x < 256) :
    Nat.digits 256 (bytesToNat bs) = (bs.dropWhile (· == 0)).reverse := by
  rw [bytesToNat_dropWhile_zero, bytesToNat_eq_ofDigits]
  apply Nat.digits_ofDigits 256 (by norm_num)
  · intro x hx
    exact hvalid x (mem_dropWhile_subset _ bs x (List.mem_reverse.mp hx))
  · intro hnil
    have hrev : (bs.dropWhile (· == 0)).reverse.getLast? = (bs.dropWhile (· == 0)).head? :=
      List.getLast?_reverse _
    cases hhead : (bs.dropWhile (· == 0)).head? with
    | none =>
      exfalso
      rw [List.head?_eq_none_iff] at hhead
      rw [hhead] at hnil
      exact hnil rfl
    | some c =>
      have hc0 : (c == 0) = false := head_dropWhile_false (· == 0) bs c hhead
      have h2 := List.getLast?_eq_getLast _ hnil
      rw [hrev, hhead] at h2
      rw [← Option.some.inj h2]
      exact beq_eq_false_iff_ne.mp hc0

/-- The base58 transport encoding round-trips on byte lists. -/
theorem base58_roundtrip (bs : List Nat) (hvalid : ∀ x ∈ bs, x < 256) :
    base58Decode (base58Encode bs) = some bs := by
  have hsplit : List.replicate (bs.takeWhile (· == 0)).length 0 ++ bs.dropWhile (· == 0)
      = bs := by
    rw [← takeWhile_beq_replicate 0 bs]
    exact List.takeWhile_append_dropWhile _ _
  unfold base58Encode
  rw [base58Decode_mk]
  by_cases hn : bytesToNat bs = 0
  · -- the all-zero-bytes case: no base58 digits, only leading '1's
    have hdrop : bs.dropWhile (· == 0) = [] := by
      cases hd : bs.dropWhile (· == 0) with
      | nil => rfl
      | cons hd0 tl =>
        exfalso
        have hh : (hd0 == 0) = false :=
          head_dropWhile_false (· == 0) bs hd0 (by rw [hd]; rfl)
        have hne0 : hd0 ≠ 0 := beq_eq_false_iff_ne.mp hh
        refine ofDigits_concat_ne_zero 256 (by norm_num) tl.reverse hd0 hne0 ?_
        rw [← List.reverse_cons, ← bytesToNat_eq_ofDigits, ← hd,
          ← bytesToNat_dropWhile_zero]
        exact hn
    rw [hn]
    rw [show digitsLE 58 0 = [] from rfl]
    rw [show (([] : List Nat).reverse.map (fun d => b58Alphabet.getD d ' ')) = [] from rfl]
    obtain ⟨hdw, htw⟩ := dropWhile_takeWhile_replicate_append (· == '1') '1' rfl
      [] (fun c hc => by cases hc) (bs.takeWhile (· == 0)).length
    rw [hdw, htw]
    rw [show b58ParseDigits [] = some [] from rfl]
    simp only [Option.map_some']
    rw [List.length_replicate]
    rw [show (([] : List Nat).foldl (fun acc x => acc * 58 + x) 0) = 0 from rfl]
    rw [show digitsLE 256 0 = [] from rfl]
    rw [show ([] : List Nat).reverse = [] from rfl, List.append_nil]
    have hfinal : List.replicate (bs.takeWhile (· == 0)).length 0 = bs := by
      conv_rhs => rw [← hsplit, hdrop, List.append_nil]
    rw [hfinal]
  · -- at least one nonzero byte: a nonempty digit string follows the '1's
    rw [digitsLE_eq_digits 58 (bytesToNat bs) (by norm_num)]
    have hne : Nat.digits 58 (bytesToNat bs) ≠ [] := Nat.digits_ne_nil_iff_ne_zero.mpr hn
    have hlast : (Nat.digits 58 (bytesToNat bs)).getLast hne ≠ 0 :=
      Nat.getLast_digit_ne_zero 58 hn
    have hd0lt : (Nat.digits 58 (bytesToNat bs)).getLast hne < 58 :=
      Nat.digits_lt_base (by norm_num) (List.getLast_mem hne)
    have hheadmap : ((Nat.digits 58 (bytesToNat bs)).reverse.map
        (fun d => b58Alphabet.getD d ' ')).head? =
          some (b58Alphabet.getD ((Nat.digits 58 (bytesToNat bs)).getLast hne) ' ') := by
      rw [List.head?_map, List.head?_reverse, List.getLast?_eq_getLast _ hne]
      rfl
    have hl : ∀ c, ((Nat.digits 58 (bytesToNat bs)).reverse.map
        (fun d => b58Alphabet.getD d ' ')).head? = some c → (c == '1') = false := by
      intro c hc
      rw [hheadmap] at hc
      cases hc
      exact b58_getD_ne_one _ hd0lt hlast
    obtain ⟨hdw, htw⟩ := dropWhile_takeWhile_replicate_append (· == '1') '1' rfl
      ((Nat.digits 58 (bytesToNat bs)).reverse.map (fun d => b58Alphabet.getD d ' ')) hl
      (bs.takeWhile (· == 0)).length
    rw [hdw, htw]
    rw [b58ParseDigits_map _
      (fun d hd => Nat.digits_lt_base (by norm_num) (List.mem_reverse.mp hd))]
    simp only [Option.map_some']
    rw [List.length_replicate]
    rw [foldl58_eq_ofDigits, List.reverse_reverse, Nat.ofDigits_digits]
    rw [digitsLE_eq_digits 256 (bytesToNat bs) (by norm_num)]
    rw [digits_256_bytes bs hvalid, List.reverse_reverse, hsplit]

/-- C3: storing base58-encoded key material under a fresh id and
immediately getting it back recovers the original bytes exactly, with
`revoked = false` and an empty `revokedAt` — the store-then-get round
trip through the base58 transport encoding is the identity on key
bytes. -/
theorem c3_store_get_base58_roundtrip (s : KeyStoreState) (i keyType controller : String)
    (k : List Nat) (hne : i ≠ "") (hfresh : lookupRecord s.records i = none)
    (hbytes : ∀ x ∈ k, x < 256) :
    ∃ s', StoreKey s i keyType controller (base58Encode k) = Except.ok s' ∧
      ∃ resp, GetKey s' i = Except.ok resp ∧ resp.key = k ∧ resp.revoked = false ∧
        resp.revokedAt = "" := by
  refine ⟨{ s with records := (i, ⟨i, keyType, controller, k, false, ""⟩) :: s.records },
    ?_, ⟨k, false, ""⟩, ?_, rfl, rfl, rfl⟩
  · unfold StoreKey
    rw [if_neg hne]
    simp only [hfresh, base58_roundtrip k hbytes]
  · unfold GetKey
    have hlook : lookupRecord ({ s with records :=
        (i, ⟨i, keyType, controller, k, false, ""⟩) :: s.records } : KeyStoreState).records i
        = some ⟨i, keyType, controller, k, false, ""⟩ := by
      show lookupRecord ((i, ⟨i, keyType, controller, k, false, ""⟩) :: s.records) i = _
      rw [lookupRecord_cons, if_pos rfl]
    rw [hlook]

theorem c3_store_get_base58_roundtrip_witness :
    ∃ s', StoreKey ⟨[], mockClock⟩ "test-id" "Ed25519" "test-controller"
        (base58Encode [1, 2, 3]) = Except.ok s' ∧
      ∃ resp, GetKey s' "test-id" = Except.ok resp ∧ resp.key = [1, 2, 3] ∧
        resp.revoked = false ∧ resp.revokedAt = "" :=
  c3_store_get_base58_roundtrip ⟨[], mockClock⟩ "test-id" "Ed25519" "test-controller"
    [1, 2, 3] (by decide) rfl (by decide)

end SSI
